import Mathlib

/-!
Shallow embedding of the accuracy-metrics calculator (`calculate_accuracy`)
shared by the Titanic machine-learning notebooks.

The source computes element-wise boolean masks over two equal-length label
arrays and divides mask sums.  NumPy performs those divisions in IEEE-754
floating point, so a zero denominator yields NaN (0/0) or infinity (x/0)
rather than an exception.  All values arising in the program are exact
small rationals, so we model the floating-point results by the type `RVal`:
finite rationals extended with positive infinity, negative infinity and
NaN, with the IEEE-754 propagation rules for the operations the code uses.
-/

/-- Model of a NumPy floating-point scalar: a finite rational, an infinity,
or NaN, with IEEE-754 style arithmetic. -/
inductive RVal where
  | fin (q : ℚ)
  | posInf
  | negInf
  | nan
deriving DecidableEq

/-- IEEE-754 negation on model values. -/
def RVal.neg : RVal → RVal
  | .fin q => .fin (-q)
  | .posInf => .negInf
  | .negInf => .posInf
  | .nan => .nan

/-- IEEE-754 addition on model values. -/
def RVal.add : RVal → RVal → RVal
  | .nan, _ => .nan
  | _, .nan => .nan
  | .fin a, .fin b => .fin (a + b)
  | .fin _, .posInf => .posInf
  | .fin _, .negInf => .negInf
  | .posInf, .fin _ => .posInf
  | .negInf, .fin _ => .negInf
  | .posInf, .posInf => .posInf
  | .negInf, .negInf => .negInf
  | .posInf, .negInf => .nan
  | .negInf, .posInf => .nan

/-- IEEE-754 subtraction on model values. -/
def RVal.sub (a b : RVal) : RVal := RVal.add a (RVal.neg b)

/-- IEEE-754 multiplication on model values. -/
def RVal.mul : RVal → RVal → RVal
  | .nan, _ => .nan
  | _, .nan => .nan
  | .fin a, .fin b => .fin (a * b)
  | .fin a, .posInf => if 0 < a then .posInf else if a < 0 then .negInf else .nan
  | .fin a, .negInf => if 0 < a then .negInf else if a < 0 then .posInf else .nan
  | .posInf, .fin b => if 0 < b then .posInf else if b < 0 then .negInf else .nan
  | .negInf, .fin b => if 0 < b then .negInf else if b < 0 then .posInf else .nan
  | .posInf, .posInf => .posInf
  | .posInf, .negInf => .negInf
  | .negInf, .posInf => .negInf
  | .negInf, .negInf => .posInf

/-- IEEE-754 division on model values (the zero divisor is NumPy's +0). -/
def RVal.div : RVal → RVal → RVal
  | .nan, _ => .nan
  | _, .nan => .nan
  | .fin a, .fin b =>
      if b = 0 then (if 0 < a then .posInf else if a < 0 then .negInf else .nan)
      else .fin (a / b)
  | .fin _, .posInf => .fin 0
  | .fin _, .negInf => .fin 0
  | .posInf, .fin b => if b < 0 then .negInf else .posInf
  | .negInf, .fin b => if b < 0 then .posInf else .negInf
  | .posInf, .posInf => .nan
  | .posInf, .negInf => .nan
  | .negInf, .posInf => .nan
  | .negInf, .negInf => .nan

/-- The value is NaN or an infinity: a non-finite floating-point result. -/
def RVal.nonFinite (v : RVal) : Prop :=
  v = RVal.nan ∨ v = RVal.posInf ∨ v = RVal.negInf

/-- The value is a finite rational lying in the closed unit interval. -/
def RVal.inUnit : RVal → Prop
  | .fin q => 0 ≤ q ∧ q ≤ 1
  | _ => False

instance (v : RVal) : Decidable (RVal.nonFinite v) := by
  unfold RVal.nonFinite; infer_instance

instance (v : RVal) : Decidable (RVal.inUnit v) := by
  cases v <;> (unfold RVal.inUnit; infer_instance)

/-- Element-wise comparison of a label array with a constant, as in the
source lines such as `observed_positives = observed == 1`. -/
def eqMask (xs : List ℕ) (v : ℕ) : List Bool :=
  xs.map (fun x => x == v)

/-- Element-wise boolean negation, as in `observed_positives == 0` applied
to a boolean mask. -/
def notMask (m : List Bool) : List Bool :=
  m.map (fun b => !b)

/-- Element-wise conjunction of two boolean masks (`&` in the source). -/
def andMask (a b : List Bool) : List Bool :=
  List.zipWith (fun x y => x && y) a b

/-- Sum of a boolean mask (`np.sum`): the number of `true` entries. -/
def countTrue (m : List Bool) : ℕ :=
  (m.filter (fun b => b)).length

/-- Mean of a boolean mask (`np.mean`): true count over length, NaN on an
empty array. -/
def meanMask (m : List Bool) : RVal :=
  RVal.div (RVal.fin (countTrue m)) (RVal.fin (m.length))

/-- The dictionary of metrics returned by `calculate_accuracy`. -/
structure AccuracyResults where
  observed_positive_rate : RVal
  observed_negative_rate : RVal
  predicted_positive_rate : RVal
  predicted_negative_rate : RVal
  accuracy : RVal
  precision : RVal
  recall' : RVal
  f1 : RVal
  sensitivity : RVal
  specificity : RVal
  positive_likelihood : RVal
  negative_likelihood : RVal
  false_positive_rate : RVal
  false_negative_rate : RVal
  true_positive_rate : RVal
  true_negative_rate : RVal
  positive_predictive_value : RVal
  negative_predictive_value : RVal
deriving DecidableEq

/-- Embedding of `calculate_accuracy(observed, predicted)` from the
notebooks, translated line by line: the boolean masks, the mask sums, and
each metric in the order the source computes them.  Note the source divides
`positive_predictive_value` and `negative_predictive_value` by
`np.sum(observed_positives)`. -/
def calculate_accuracy (observed predicted : List ℕ) : AccuracyResults :=
  let observed_positives := eqMask observed 1
  let observed_negatives := eqMask observed 0
  let predicted_positives := eqMask predicted 1
  let predicted_negatives := eqMask predicted 0
  let true_positives := andMask predicted_positives observed_positives
  let false_positives := andMask predicted_positives (notMask observed_positives)
  let true_negatives := andMask predicted_negatives observed_negatives
  let accuracy := meanMask (List.zipWith (fun a b => a == b) predicted observed)
  let precision := RVal.div (RVal.fin (countTrue true_positives))
      (RVal.fin ((countTrue true_positives + countTrue false_positives : ℕ)))
  let recall' := RVal.div (RVal.fin (countTrue true_positives))
      (RVal.fin (countTrue observed_positives))
  let sensitivity := recall'
  let f1 := RVal.mul (RVal.fin 2)
      (RVal.div (RVal.mul precision recall') (RVal.add precision recall'))
  let specificity := RVal.div (RVal.fin (countTrue true_negatives))
      (RVal.fin (countTrue observed_negatives))
  let positive_likelihood := RVal.div sensitivity (RVal.sub (RVal.fin 1) specificity)
  let negative_likelihood := RVal.div (RVal.sub (RVal.fin 1) sensitivity) specificity
  let false_positive_rate := RVal.sub (RVal.fin 1) specificity
  let false_negative_rate := RVal.sub (RVal.fin 1) sensitivity
  let true_positive_rate := sensitivity
  let true_negative_rate := specificity
  let positive_predictive_value := RVal.div (RVal.fin (countTrue true_positives))
      (RVal.fin (countTrue observed_positives))
  let negative_predictive_value := RVal.div (RVal.fin (countTrue true_negatives))
      (RVal.fin (countTrue observed_positives))
  { observed_positive_rate := meanMask observed_positives
    observed_negative_rate := meanMask observed_negatives
    predicted_positive_rate := meanMask predicted_positives
    predicted_negative_rate := meanMask predicted_negatives
    accuracy := accuracy
    precision := precision
    recall' := recall'
    f1 := f1
    sensitivity := sensitivity
    specificity := specificity
    positive_likelihood := positive_likelihood
    negative_likelihood := negative_likelihood
    false_positive_rate := false_positive_rate
    false_negative_rate := false_negative_rate
    true_positive_rate := true_positive_rate
    true_negative_rate := true_negative_rate
    positive_predictive_value := positive_predictive_value
    negative_predictive_value := negative_predictive_value }

/-- Number of index positions where `observed` holds `a` and `predicted`
holds `b` (independent pair counts used to state the claims). -/
def pairCount (observed predicted : List ℕ) (a b : ℕ) : ℕ :=
  ((List.zip observed predicted).filter (fun x => x.1 == a && x.2 == b)).length

/-- True positives: observed 1, predicted 1. -/
def nTP (observed predicted : List ℕ) : ℕ := pairCount observed predicted 1 1

/-- False positives: observed 0, predicted 1. -/
def nFP (observed predicted : List ℕ) : ℕ := pairCount observed predicted 0 1

/-- True negatives: observed 0, predicted 0. -/
def nTN (observed predicted : List ℕ) : ℕ := pairCount observed predicted 0 0

/-- False negatives: observed 1, predicted 0. -/
def nFN (observed predicted : List ℕ) : ℕ := pairCount observed predicted 1 0

/-- The label sequence contains only the values 0 and 1. -/
def BinarySeq (l : List ℕ) : Prop := ∀ x ∈ l, x = 0 ∨ x = 1

instance (l : List ℕ) : Decidable (BinarySeq l) := by
  unfold BinarySeq; infer_instance

/-- Element-wise logical complement of a binary label sequence: 0 becomes 1
and 1 becomes 0. -/
def complementSeq (l : List ℕ) : List ℕ := l.map (fun x => 1 - x)

@[simp]
lemma eqMask_nil (v : ℕ) : eqMask [] v = [] := rfl

@[simp]
lemma eqMask_cons (x : ℕ) (xs : List ℕ) (v : ℕ) :
    eqMask (x :: xs) v = (x == v) :: eqMask xs v := rfl

@[simp]
lemma notMask_nil : notMask [] = [] := rfl

@[simp]
lemma notMask_cons (b : Bool) (m : List Bool) : notMask (b :: m) = (!b) :: notMask m := rfl

@[simp]
lemma andMask_nil_left (m : List Bool) : andMask [] m = [] := rfl

@[simp]
lemma andMask_nil_right (m : List Bool) : andMask m [] = [] := by
  cases m <;> rfl

@[simp]
lemma andMask_cons (a b : Bool) (as bs : List Bool) :
    andMask (a :: as) (b :: bs) = (a && b) :: andMask as bs := rfl

@[simp]
lemma countTrue_nil : countTrue [] = 0 := rfl

@[simp]
lemma countTrue_cons (b : Bool) (m : List Bool) :
    countTrue (b :: m) = (if b then 1 else 0) + countTrue m := by
  cases b <;> simp [countTrue, List.filter_cons] <;> omega

@[simp]
lemma pairCount_nil_left (p : List ℕ) (a b : ℕ) : pairCount [] p a b = 0 := rfl

@[simp]
lemma pairCount_nil_right (o : List ℕ) (a b : ℕ) : pairCount o [] a b = 0 := by
  simp [pairCount]

@[simp]
lemma pairCount_cons (x y : ℕ) (o p : List ℕ) (a b : ℕ) :
    pairCount (x :: o) (y :: p) a b =
      (if x == a && y == b then 1 else 0) + pairCount o p a b := by
  by_cases h : (x == a && y == b) = true <;>
    simp [pairCount, List.zip_cons_cons, List.filter_cons, h] <;> omega

/-- The metric dictionary expressed as a function of the four pair counts
and the array length; `calculate_accuracy` is proved equal to this form on
equal-length binary inputs.  Each field repeats the arithmetic of the
corresponding source line (in particular both predictive values are divided
by the observed-positive count `TP + FN`, as the source does). -/
def metricsFromCounts (TP FP TN FN N : ℕ) : AccuracyResults :=
  let precision := RVal.div (RVal.fin TP) (RVal.fin ((TP + FP : ℕ)))
  let recall' := RVal.div (RVal.fin TP) (RVal.fin ((TP + FN : ℕ)))
  let f1 := RVal.mul (RVal.fin 2)
      (RVal.div (RVal.mul precision recall') (RVal.add precision recall'))
  let specificity := RVal.div (RVal.fin TN) (RVal.fin ((TN + FP : ℕ)))
  { observed_positive_rate := RVal.div (RVal.fin ((TP + FN : ℕ))) (RVal.fin N)
    observed_negative_rate := RVal.div (RVal.fin ((TN + FP : ℕ))) (RVal.fin N)
    predicted_positive_rate := RVal.div (RVal.fin ((TP + FP : ℕ))) (RVal.fin N)
    predicted_negative_rate := RVal.div (RVal.fin ((TN + FN : ℕ))) (RVal.fin N)
    accuracy := RVal.div (RVal.fin ((TP + TN : ℕ))) (RVal.fin N)
    precision := precision
    recall' := recall'
    f1 := f1
    sensitivity := recall'
    specificity := specificity
    positive_likelihood := RVal.div recall' (RVal.sub (RVal.fin 1) specificity)
    negative_likelihood := RVal.div (RVal.sub (RVal.fin 1) recall') specificity
    false_positive_rate := RVal.sub (RVal.fin 1) specificity
    false_negative_rate := RVal.sub (RVal.fin 1) recall'
    true_positive_rate := recall'
    true_negative_rate := specificity
    positive_predictive_value := RVal.div (RVal.fin TP) (RVal.fin ((TP + FN : ℕ)))
    negative_predictive_value := RVal.div (RVal.fin TN) (RVal.fin ((TP + FN : ℕ))) }

/-- On equal-length binary inputs, every mask count computed by the source
equals the corresponding combination of the four pair counts. -/
lemma maskCounts (o p : List ℕ) (hlen : o.length = p.length)
    (ho : BinarySeq o) (hp : BinarySeq p) :
    countTrue (andMask (eqMask p 1) (eqMask o 1)) = nTP o p ∧
    countTrue (andMask (eqMask p 1) (notMask (eqMask o 1))) = nFP o p ∧
    countTrue (andMask (eqMask p 0) (eqMask o 0)) = nTN o p ∧
    countTrue (eqMask o 1) = nTP o p + nFN o p ∧
    countTrue (eqMask o 0) = nTN o p + nFP o p ∧
    countTrue (eqMask p 1) = nTP o p + nFP o p ∧
    countTrue (eqMask p 0) = nTN o p + nFN o p ∧
    countTrue (List.zipWith (fun a b => a == b) p o) = nTP o p + nTN o p ∧
    o.length = nTP o p + nFP o p + nTN o p + nFN o p := by
  induction o generalizing p with
  | nil =>
    cases p with
    | nil => simp [nTP, nFP, nTN, nFN]
    | cons b p => simp at hlen
  | cons a o ih =>
    cases p with
    | nil => simp at hlen
    | cons b p =>
      have ha : a = 0 ∨ a = 1 := ho a (List.mem_cons_self a o)
      have hb : b = 0 ∨ b = 1 := hp b (List.mem_cons_self b p)
      have ho' : BinarySeq o := fun x hx => ho x (List.mem_cons_of_mem a hx)
      have hp' : BinarySeq p := fun x hx => hp x (List.mem_cons_of_mem b hx)
      have hlen' : o.length = p.length := by simpa using hlen
      obtain ⟨h1, h2, h3, h4, h5, h6, h7, h8, h9⟩ := ih p hlen' ho' hp'
      rcases ha with ha | ha <;> rcases hb with hb | hb <;> subst ha <;> subst hb <;>
        simp [nTP, nFP, nTN, nFN, List.zipWith_cons_cons, h1, h2, h3, h4, h5, h6,
          h7, h8, h9] <;>
        omega

@[simp]
lemma eqMask_length (xs : List ℕ) (v : ℕ) : (eqMask xs v).length = xs.length := by
  simp [eqMask]

/-- Bridge: on equal-length binary inputs the source computation agrees with
the pair-count form of the metrics. -/
lemma calculate_accuracy_eq_counts (o p : List ℕ) (hlen : o.length = p.length)
    (ho : BinarySeq o) (hp : BinarySeq p) :
    calculate_accuracy o p =
      metricsFromCounts (nTP o p) (nFP o p) (nTN o p) (nFN o p) o.length := by
  obtain ⟨h1, h2, h3, h4, h5, h6, h7, h8, h9⟩ := maskCounts o p hlen ho hp
  simp only [calculate_accuracy, metricsFromCounts, meanMask, eqMask_length,
    List.length_zipWith, hlen, min_self, h1, h2, h3, h4, h5, h6, h7, h8]

lemma RVal.div_fin_of_ne (a b : ℚ) (hb : b ≠ 0) :
    RVal.div (RVal.fin a) (RVal.fin b) = RVal.fin (a / b) := by
  simp [RVal.div, hb]

lemma RVal.div_fin_zero_zero : RVal.div (RVal.fin 0) (RVal.fin 0) = RVal.nan := by
  norm_num [RVal.div]

lemma RVal.div_cast_of_ne (m n : ℕ) (hn : n ≠ 0) :
    RVal.div (RVal.fin m) (RVal.fin n) = RVal.fin ((m : ℚ) / n) :=
  RVal.div_fin_of_ne _ _ (Nat.cast_ne_zero.mpr hn)

lemma RVal.inUnit_div_cast (m n : ℕ) (hn : n ≠ 0) (hmn : m ≤ n) :
    RVal.inUnit (RVal.div (RVal.fin m) (RVal.fin n)) := by
  rw [RVal.div_cast_of_ne m n hn]
  have hn' : (0 : ℚ) < n := by
    exact_mod_cast Nat.pos_of_ne_zero hn
  simp only [RVal.inUnit]
  constructor
  · positivity
  · rw [div_le_one hn']
    exact_mod_cast hmn

/-- Specification formula: precision = TP / (TP + FP) over the pair counts. -/
def precisionOf (o p : List ℕ) : ℚ := (nTP o p : ℚ) / ((nTP o p : ℚ) + (nFP o p : ℚ))

/-- Specification formula: recall = TP / (TP + FN) over the pair counts. -/
def recallOf (o p : List ℕ) : ℚ := (nTP o p : ℚ) / ((nTP o p : ℚ) + (nFN o p : ℚ))

/-- Specification formula: specificity = TN / (TN + FP) over the pair counts. -/
def specificityOf (o p : List ℕ) : ℚ := (nTN o p : ℚ) / ((nTN o p : ℚ) + (nFP o p : ℚ))

lemma countTrue_replicate_true (n : ℕ) : countTrue (List.replicate n true) = n := by
  induction n with
  | zero => simp
  | succ n ih =>
    simp [List.replicate_succ, ih]
    omega

lemma countTrue_zipWith_self (s : List ℕ) :
    countTrue (List.zipWith (fun a b => a == b) s s) = s.length := by
  induction s with
  | nil => simp
  | cons a s ih =>
    simp [List.zipWith_cons_cons, ih, countTrue_replicate_true]
    omega

lemma countTrue_zipWith_complement (s : List ℕ) (hs : BinarySeq s) :
    countTrue (List.zipWith (fun a b => a == b) (complementSeq s) s) = 0 := by
  induction s with
  | nil => simp [complementSeq]
  | cons a s ih =>
    have ha : a = 0 ∨ a = 1 := hs a (List.mem_cons_self a s)
    have hs' : BinarySeq s := fun x hx => hs x (List.mem_cons_of_mem a hx)
    rcases ha with ha | ha <;> subst ha <;>
      simp [complementSeq, List.zipWith_cons_cons, ih hs'] <;>
      simpa [complementSeq] using ih hs'

/-- C1: on the literal input observed = [1,1,0,0,1], predicted = [1,0,0,1,1]
the calculator returns accuracy 3/5 = 0.6, precision 2/3, recall 2/3,
f1 = 2/3 — which equals 2·precision·recall/(precision+recall) exactly — and
specificity 1/2 = 0.5, consistent with the independently computed pair
counts TP = 2, FP = 1, FN = 1, TN = 1. -/
theorem claim_C1_literal_example :
    (calculate_accuracy [1,1,0,0,1] [1,0,0,1,1]).accuracy = RVal.fin (3/5) ∧
    (calculate_accuracy [1,1,0,0,1] [1,0,0,1,1]).precision = RVal.fin (2/3) ∧
    (calculate_accuracy [1,1,0,0,1] [1,0,0,1,1]).recall' = RVal.fin (2/3) ∧
    (calculate_accuracy [1,1,0,0,1] [1,0,0,1,1]).f1 = RVal.fin (2/3) ∧
    (2 : ℚ)/3 = 2 * (2/3) * (2/3) / (2/3 + 2/3) ∧
    (calculate_accuracy [1,1,0,0,1] [1,0,0,1,1]).specificity = RVal.fin (1/2) ∧
    nTP [1,1,0,0,1] [1,0,0,1,1] = 2 ∧ nFP [1,1,0,0,1] [1,0,0,1,1] = 1 ∧
    nFN [1,1,0,0,1] [1,0,0,1,1] = 1 ∧ nTN [1,1,0,0,1] [1,0,0,1,1] = 1 := by
  norm_num [calculate_accuracy, meanMask, RVal.div, RVal.mul, RVal.add, RVal.sub,
    RVal.neg, nTP, nFP, nTN, nFN]

/-- C6: for every non-empty binary sequence, predicting the observed labels
themselves yields accuracy exactly 1. -/
theorem claim_C6_self_agreement (s : List ℕ) (hs : BinarySeq s) (hne : s ≠ []) :
    (calculate_accuracy s s).accuracy = RVal.fin 1 := by
  have hlen : s.length ≠ 0 := fun h => hne (List.length_eq_zero.mp h)
  have hq : ((s.length : ℚ)) ≠ 0 := Nat.cast_ne_zero.mpr hlen
  simp only [calculate_accuracy, meanMask, countTrue_zipWith_self,
    List.length_zipWith, min_self]
  rw [RVal.div_fin_of_ne _ _ hq, div_self hq]

/-- C6 witness at s = [1, 0, 1]. -/
theorem claim_C6_witness : (calculate_accuracy [1, 0, 1] [1, 0, 1]).accuracy = RVal.fin 1 :=
  claim_C6_self_agreement [1, 0, 1] (by decide) (by decide)

/-- C7: for every non-empty binary sequence, predicting the element-wise
logical complement of the observed labels yields accuracy exactly 0. -/
theorem claim_C7_complement (s : List ℕ) (hs : BinarySeq s) (hne : s ≠ []) :
    (calculate_accuracy s (complementSeq s)).accuracy = RVal.fin 0 := by
  have hlen : s.length ≠ 0 := fun h => hne (List.length_eq_zero.mp h)
  have hclen : (complementSeq s).length = s.length := by simp [complementSeq]
  have hq : ((s.length : ℚ)) ≠ 0 := Nat.cast_ne_zero.mpr hlen
  simp only [calculate_accuracy, meanMask, countTrue_zipWith_complement s hs,
    List.length_zipWith, hclen, min_self]
  rw [show ((0 : ℕ) : ℚ) = 0 by norm_num, RVal.div_fin_of_ne _ _ hq, zero_div]

/-- C7 witness at s = [1, 0, 1]. -/
theorem claim_C7_witness :
    (calculate_accuracy [1, 0, 1] (complementSeq [1, 0, 1])).accuracy = RVal.fin 0 :=
  claim_C7_complement [1, 0, 1] (by decide) (by decide)

lemma RVal.add_nan_right (v : RVal) : RVal.add v RVal.nan = RVal.nan := by
  cases v <;> rfl

lemma RVal.mul_nan_right (v : RVal) : RVal.mul v RVal.nan = RVal.nan := by
  cases v <;> rfl

lemma RVal.sub_fin_fin (a b : ℚ) :
    RVal.sub (RVal.fin a) (RVal.fin b) = RVal.fin (a - b) := by
  simp [RVal.sub, RVal.add, RVal.neg, sub_eq_add_neg]

lemma mfc_accuracy (TP FP TN FN N : ℕ) :
    (metricsFromCounts TP FP TN FN N).accuracy =
      RVal.div (RVal.fin ((TP + TN : ℕ))) (RVal.fin N) := rfl

lemma mfc_precision (TP FP TN FN N : ℕ) :
    (metricsFromCounts TP FP TN FN N).precision =
      RVal.div (RVal.fin TP) (RVal.fin ((TP + FP : ℕ))) := rfl

lemma mfc_recall (TP FP TN FN N : ℕ) :
    (metricsFromCounts TP FP TN FN N).recall' =
      RVal.div (RVal.fin TP) (RVal.fin ((TP + FN : ℕ))) := rfl

lemma mfc_f1 (TP FP TN FN N : ℕ) :
    (metricsFromCounts TP FP TN FN N).f1 =
      RVal.mul (RVal.fin 2)
        (RVal.div
          (RVal.mul (RVal.div (RVal.fin TP) (RVal.fin ((TP + FP : ℕ))))
            (RVal.div (RVal.fin TP) (RVal.fin ((TP + FN : ℕ)))))
          (RVal.add (RVal.div (RVal.fin TP) (RVal.fin ((TP + FP : ℕ))))
            (RVal.div (RVal.fin TP) (RVal.fin ((TP + FN : ℕ)))))) := rfl

lemma mfc_specificity (TP FP TN FN N : ℕ) :
    (metricsFromCounts TP FP TN FN N).specificity =
      RVal.div (RVal.fin TN) (RVal.fin ((TN + FP : ℕ))) := rfl

lemma mfc_positive_likelihood (TP FP TN FN N : ℕ) :
    (metricsFromCounts TP FP TN FN N).positive_likelihood =
      RVal.div (RVal.div (RVal.fin TP) (RVal.fin ((TP + FN : ℕ))))
        (RVal.sub (RVal.fin 1)
          (RVal.div (RVal.fin TN) (RVal.fin ((TN + FP : ℕ))))) := rfl

lemma mfc_negative_likelihood (TP FP TN FN N : ℕ) :
    (metricsFromCounts TP FP TN FN N).negative_likelihood =
      RVal.div
        (RVal.sub (RVal.fin 1) (RVal.div (RVal.fin TP) (RVal.fin ((TP + FN : ℕ)))))
        (RVal.div (RVal.fin TN) (RVal.fin ((TN + FP : ℕ)))) := rfl

lemma mfc_false_positive_rate (TP FP TN FN N : ℕ) :
    (metricsFromCounts TP FP TN FN N).false_positive_rate =
      RVal.sub (RVal.fin 1)
        (RVal.div (RVal.fin TN) (RVal.fin ((TN + FP : ℕ)))) := rfl

lemma mfc_false_negative_rate (TP FP TN FN N : ℕ) :
    (metricsFromCounts TP FP TN FN N).false_negative_rate =
      RVal.sub (RVal.fin 1)
        (RVal.div (RVal.fin TP) (RVal.fin ((TP + FN : ℕ)))) := rfl

lemma mfc_ppv (TP FP TN FN N : ℕ) :
    (metricsFromCounts TP FP TN FN N).positive_predictive_value =
      RVal.div (RVal.fin TP) (RVal.fin ((TP + FN : ℕ))) := rfl

lemma mfc_npv (TP FP TN FN N : ℕ) :
    (metricsFromCounts TP FP TN FN N).negative_predictive_value =
      RVal.div (RVal.fin TN) (RVal.fin ((TP + FN : ℕ))) := rfl

lemma ratio_bounds (m n : ℕ) (h : m + n ≠ 0) :
    0 ≤ (m : ℚ) / ((m : ℚ) + (n : ℚ)) ∧ (m : ℚ) / ((m : ℚ) + (n : ℚ)) ≤ 1 := by
  have hpos : (0 : ℚ) < (m : ℚ) + (n : ℚ) := by
    have h' : 0 < m + n := Nat.pos_of_ne_zero h
    exact_mod_cast h'
  constructor
  · positivity
  · rw [div_le_one hpos]
    have : (0 : ℚ) ≤ (n : ℚ) := Nat.cast_nonneg n
    linarith

/-- C8: for any equal-length non-empty binary inputs, the observed positive
and negative rates sum to exactly 1. -/
theorem claim_C8_rate_partition (o p : List ℕ) (hlen : o.length = p.length)
    (hne : o ≠ []) (ho : BinarySeq o) (hp : BinarySeq p) :
    RVal.add (calculate_accuracy o p).observed_positive_rate
      (calculate_accuracy o p).observed_negative_rate = RVal.fin 1 := by
  obtain ⟨h1, h2, h3, h4, h5, h6, h7, h8, h9⟩ := maskCounts o p hlen ho hp
  have hn : o.length ≠ 0 := fun h => hne (List.length_eq_zero.mp h)
  have hq : ((o.length : ℚ)) ≠ 0 := Nat.cast_ne_zero.mpr hn
  simp only [calculate_accuracy, meanMask, eqMask_length, h4, h5]
  rw [RVal.div_cast_of_ne _ _ hn, RVal.div_cast_of_ne _ _ hn]
  simp only [RVal.add]
  rw [div_add_div_same]
  have hsum : (((nTP o p + nFN o p : ℕ)) : ℚ) + ((nTN o p + nFP o p : ℕ) : ℚ) =
      ((o.length : ℚ)) := by
    exact_mod_cast congrArg (Nat.cast (R := ℚ))
      (by omega : (nTP o p + nFN o p) + (nTN o p + nFP o p) = o.length)
  rw [hsum, div_self hq]

/-- C8 witness at observed = [1, 0], predicted = [1, 1]. -/
theorem claim_C8_witness :
    RVal.add (calculate_accuracy [1, 0] [1, 1]).observed_positive_rate
      (calculate_accuracy [1, 0] [1, 1]).observed_negative_rate = RVal.fin 1 :=
  claim_C8_rate_partition [1, 0] [1, 1] (by decide) (by decide) (by decide) (by decide)

/-- C9: for equal-length binary inputs, the returned positive predictive
value coincides with the returned recall, and both equal the true-positive
count divided by the observed-positive count TP + FN. -/
theorem claim_C9_ppv_equals_recall (o p : List ℕ) (hlen : o.length = p.length)
    (ho : BinarySeq o) (hp : BinarySeq p) :
    (calculate_accuracy o p).positive_predictive_value =
      (calculate_accuracy o p).recall' ∧
    (calculate_accuracy o p).positive_predictive_value =
      RVal.div (RVal.fin (nTP o p)) (RVal.fin ((nTP o p + nFN o p : ℕ))) := by
  constructor
  · rfl
  · rw [calculate_accuracy_eq_counts o p hlen ho hp, mfc_ppv]

/-- C9 witness at observed = [1, 1, 0], predicted = [1, 0, 1]. -/
theorem claim_C9_witness :
    (calculate_accuracy [1, 1, 0] [1, 0, 1]).positive_predictive_value =
      (calculate_accuracy [1, 1, 0] [1, 0, 1]).recall' ∧
    (calculate_accuracy [1, 1, 0] [1, 0, 1]).positive_predictive_value =
      RVal.div (RVal.fin (nTP [1, 1, 0] [1, 0, 1]))
        (RVal.fin ((nTP [1, 1, 0] [1, 0, 1] + nFN [1, 1, 0] [1, 0, 1] : ℕ))) :=
  claim_C9_ppv_equals_recall [1, 1, 0] [1, 0, 1] (by decide) (by decide) (by decide)

/-- C10: for equal-length binary inputs the returned negative predictive
value is the true-negative count divided by the observed-positive count
TP + FN (not by the predicted-negative count); on the valid input
observed = predicted = [1, 0, 0] it exceeds 1, being exactly 2. -/
theorem claim_C10_npv_formula (o p : List ℕ) (hlen : o.length = p.length)
    (ho : BinarySeq o) (hp : BinarySeq p) :
    (calculate_accuracy o p).negative_predictive_value =
      RVal.div (RVal.fin (nTN o p)) (RVal.fin ((nTP o p + nFN o p : ℕ))) ∧
    (calculate_accuracy [1, 0, 0] [1, 0, 0]).negative_predictive_value =
      RVal.fin 2 ∧
    (1 : ℚ) < 2 := by
  refine ⟨?_, ?_, by norm_num⟩
  · rw [calculate_accuracy_eq_counts o p hlen ho hp, mfc_npv]
  · norm_num [calculate_accuracy, meanMask, RVal.div, RVal.mul, RVal.add, RVal.sub,
      RVal.neg]

/-- C10 witness at observed = [1, 0, 0], predicted = [1, 0, 0]. -/
theorem claim_C10_witness :
    (calculate_accuracy [1, 0, 0] [1, 0, 0]).negative_predictive_value =
      RVal.div (RVal.fin (nTN [1, 0, 0] [1, 0, 0]))
        (RVal.fin ((nTP [1, 0, 0] [1, 0, 0] + nFN [1, 0, 0] [1, 0, 0] : ℕ))) ∧
    (calculate_accuracy [1, 0, 0] [1, 0, 0]).negative_predictive_value =
      RVal.fin 2 ∧
    (1 : ℚ) < 2 :=
  claim_C10_npv_formula [1, 0, 0] [1, 0, 0] (by decide) (by decide) (by decide)

lemma countTrue_eqMask_one_of_zero (o : List ℕ) (ho : ∀ x ∈ o, x = 0) :
    countTrue (eqMask o 1) = 0 := by
  induction o with
  | nil => simp
  | cons a o ih =>
    have ha : a = 0 := ho a (List.mem_cons_self a o)
    subst ha
    simpa using ih (fun x hx => ho x (List.mem_cons_of_mem _ hx))

lemma countTrue_eqMask_zero_of_zero (o : List ℕ) (ho : ∀ x ∈ o, x = 0) :
    countTrue (eqMask o 0) = o.length := by
  induction o with
  | nil => simp
  | cons a o ih =>
    have ha : a = 0 := ho a (List.mem_cons_self a o)
    subst ha
    simp [ih (fun x hx => ho x (List.mem_cons_of_mem _ hx))]
    omega

/-- C2: on equal-length non-empty binary inputs the calculator is total and
returns the whole dictionary; each metric whose denominator vanishes — no
observed positives (recall and positive predictive value), no observed
negatives (specificity), or precision + recall equal to zero (f1) — comes
back as a floating-point NaN or infinity rather than an error. -/
theorem claim_C2_zero_denominators (o p : List ℕ) (hlen : o.length = p.length)
    (hne : o ≠ []) (ho : BinarySeq o) (hp : BinarySeq p) :
    (countTrue (eqMask o 1) = 0 →
      RVal.nonFinite (calculate_accuracy o p).recall' ∧
      RVal.nonFinite (calculate_accuracy o p).positive_predictive_value) ∧
    (countTrue (eqMask o 0) = 0 →
      RVal.nonFinite (calculate_accuracy o p).specificity) ∧
    (RVal.add (calculate_accuracy o p).precision (calculate_accuracy o p).recall' =
      RVal.fin 0 → RVal.nonFinite (calculate_accuracy o p).f1) := by
  obtain ⟨h1, h2, h3, h4, h5, h6, h7, h8, h9⟩ := maskCounts o p hlen ho hp
  rw [calculate_accuracy_eq_counts o p hlen ho hp]
  refine ⟨?_, ?_, ?_⟩
  · intro h0
    have hTP : nTP o p = 0 := by omega
    have hFN : nFN o p = 0 := by omega
    constructor
    · rw [mfc_recall, hTP, hFN]
      norm_num [RVal.div_fin_zero_zero, RVal.nonFinite]
    · rw [mfc_ppv, hTP, hFN]
      norm_num [RVal.div_fin_zero_zero, RVal.nonFinite]
  · intro h0
    have hTN : nTN o p = 0 := by omega
    have hFP : nFP o p = 0 := by omega
    rw [mfc_specificity, hTN, hFP]
    norm_num [RVal.div_fin_zero_zero, RVal.nonFinite]
  · intro hpr
    rw [mfc_precision, mfc_recall] at hpr
    by_cases hd1 : nTP o p + nFP o p = 0
    · exfalso
      have hTP : nTP o p = 0 := by omega
      rw [hd1, hTP] at hpr
      norm_num [RVal.div_fin_zero_zero, RVal.add] at hpr
      exact RVal.noConfusion hpr
    · by_cases hd2 : nTP o p + nFN o p = 0
      · exfalso
        have hTP : nTP o p = 0 := by omega
        rw [hd2, hTP] at hpr
        norm_num [RVal.div_fin_zero_zero, RVal.add_nan_right] at hpr
        exact RVal.noConfusion hpr
      · rw [RVal.div_cast_of_ne _ _ hd1, RVal.div_cast_of_ne _ _ hd2] at hpr
        simp only [RVal.add, RVal.fin.injEq] at hpr
        have hPn : 0 ≤ ((nTP o p : ℚ)) / ((nTP o p + nFP o p : ℕ) : ℚ) :=
          div_nonneg (Nat.cast_nonneg _) (Nat.cast_nonneg _)
        have hRn : 0 ≤ ((nTP o p : ℚ)) / ((nTP o p + nFN o p : ℕ) : ℚ) :=
          div_nonneg (Nat.cast_nonneg _) (Nat.cast_nonneg _)
        have hP0 : ((nTP o p : ℚ)) / ((nTP o p + nFP o p : ℕ) : ℚ) = 0 := by
          linarith
        have hTP : nTP o p = 0 := by
          rcases div_eq_zero_iff.mp hP0 with h | h
          · exact_mod_cast h
          · exact absurd (by exact_mod_cast h) hd1
        rw [mfc_f1, RVal.div_cast_of_ne _ _ hd1, RVal.div_cast_of_ne _ _ hd2, hTP]
        norm_num [RVal.mul, RVal.add, RVal.div_fin_zero_zero, RVal.mul_nan_right,
          RVal.nonFinite]

/-- C2 witness at observed = [0, 0], predicted = [1, 0] (no observed
positives). -/
theorem claim_C2_witness :
    RVal.nonFinite (calculate_accuracy [0, 0] [1, 0]).recall' ∧
    RVal.nonFinite (calculate_accuracy [0, 0] [1, 0]).positive_predictive_value :=
  (claim_C2_zero_denominators [0, 0] [1, 0] (by decide) (by decide) (by decide)
    (by decide)).1 (by decide)

/-- C3 (counterexample): the claim asserts that an all-negative observed
array makes precision NaN, but on observed = [0, 0], predicted = [1, 0] the
source computes precision = 0/(0 + 1) = 0, a finite value. -/
theorem claim_C3_counterexample :
    (calculate_accuracy [0, 0] [1, 0]).precision = RVal.fin 0 ∧
    RVal.fin 0 ≠ RVal.nan := by
  constructor
  · norm_num [calculate_accuracy, meanMask, RVal.div, RVal.mul, RVal.add,
      RVal.sub, RVal.neg]
  · intro h
    exact RVal.noConfusion h

/-- C3 (amended): for a non-empty all-zero observed sequence and an
equal-length binary predicted sequence, recall and positive predictive value
are NaN and specificity is a finite value; precision is NaN exactly when the
predicted sequence also contains no positives, and otherwise equals 0. -/
theorem claim_C3_amended (o p : List ℕ) (hlen : o.length = p.length) (hne : o ≠ [])
    (ho : ∀ x ∈ o, x = 0) (hp : BinarySeq p) :
    (calculate_accuracy o p).recall' = RVal.nan ∧
    (calculate_accuracy o p).positive_predictive_value = RVal.nan ∧
    (∃ q : ℚ, (calculate_accuracy o p).specificity = RVal.fin q) ∧
    (countTrue (eqMask p 1) = 0 → (calculate_accuracy o p).precision = RVal.nan) ∧
    (countTrue (eqMask p 1) ≠ 0 → (calculate_accuracy o p).precision = RVal.fin 0) := by
  have ho' : BinarySeq o := fun x hx => Or.inl (ho x hx)
  obtain ⟨h1, h2, h3, h4, h5, h6, h7, h8, h9⟩ := maskCounts o p hlen ho' hp
  have hz1 : countTrue (eqMask o 1) = 0 := countTrue_eqMask_one_of_zero o ho
  have hz0 : countTrue (eqMask o 0) = o.length := countTrue_eqMask_zero_of_zero o ho
  have hTP : nTP o p = 0 := by omega
  have hFN : nFN o p = 0 := by omega
  have hlen0 : o.length ≠ 0 := fun h => hne (List.length_eq_zero.mp h)
  rw [calculate_accuracy_eq_counts o p hlen ho' hp]
  refine ⟨?_, ?_, ?_, ?_, ?_⟩
  · rw [mfc_recall, hTP, hFN]
    norm_num [RVal.div_fin_zero_zero]
  · rw [mfc_ppv, hTP, hFN]
    norm_num [RVal.div_fin_zero_zero]
  · have hd : nTN o p + nFP o p ≠ 0 := by omega
    exact ⟨_, by rw [mfc_specificity, RVal.div_cast_of_ne _ _ hd]⟩
  · intro h0
    have hFP : nFP o p = 0 := by omega
    rw [mfc_precision, hTP, hFP]
    norm_num [RVal.div_fin_zero_zero]
  · intro h0
    have hd : nTP o p + nFP o p ≠ 0 := by omega
    rw [mfc_precision, RVal.div_cast_of_ne _ _ hd, hTP]
    norm_num

/-- C3 witness at observed = [0, 0], predicted = [1, 0]. -/
theorem claim_C3_witness :
    (calculate_accuracy [0, 0] [1, 0]).recall' = RVal.nan ∧
    (calculate_accuracy [0, 0] [1, 0]).precision = RVal.fin 0 :=
  ⟨(claim_C3_amended [0, 0] [1, 0] (by decide) (by decide) (by decide)
      (by decide)).1,
   (claim_C3_amended [0, 0] [1, 0] (by decide) (by decide) (by decide)
      (by decide)).2.2.2.2 (by decide)⟩

/-- C4: on equal-length binary inputs, N = TP + FP + TN + FN, and whenever
the respective denominators are nonzero the returned metrics satisfy the
defining equations: accuracy = (TP+TN)/N, precision = TP/(TP+FP),
recall = TP/(TP+FN), f1 = 2·precision·recall/(precision+recall),
specificity = TN/(TN+FP), positive likelihood = recall/(1−specificity),
negative likelihood = (1−recall)/specificity, false positive rate =
1−specificity and false negative rate = 1−recall. -/
theorem claim_C4_defining_equations (o p : List ℕ) (hlen : o.length = p.length)
    (ho : BinarySeq o) (hp : BinarySeq p) :
    o.length = nTP o p + nFP o p + nTN o p + nFN o p ∧
    (o ≠ [] → (calculate_accuracy o p).accuracy =
      RVal.fin (((nTP o p + nTN o p : ℕ) : ℚ) / ((o.length : ℚ)))) ∧
    (nTP o p + nFP o p ≠ 0 →
      (calculate_accuracy o p).precision = RVal.fin (precisionOf o p)) ∧
    (nTP o p + nFN o p ≠ 0 →
      (calculate_accuracy o p).recall' = RVal.fin (recallOf o p)) ∧
    (nTP o p + nFP o p ≠ 0 → nTP o p + nFN o p ≠ 0 →
      precisionOf o p + recallOf o p ≠ 0 →
      (calculate_accuracy o p).f1 =
        RVal.fin (2 * precisionOf o p * recallOf o p /
          (precisionOf o p + recallOf o p))) ∧
    (nTN o p + nFP o p ≠ 0 →
      (calculate_accuracy o p).specificity = RVal.fin (specificityOf o p)) ∧
    (nTP o p + nFN o p ≠ 0 → nTN o p + nFP o p ≠ 0 →
      1 - specificityOf o p ≠ 0 →
      (calculate_accuracy o p).positive_likelihood =
        RVal.fin (recallOf o p / (1 - specificityOf o p))) ∧
    (nTP o p + nFN o p ≠ 0 → nTN o p + nFP o p ≠ 0 → specificityOf o p ≠ 0 →
      (calculate_accuracy o p).negative_likelihood =
        RVal.fin ((1 - recallOf o p) / specificityOf o p)) ∧
    (nTN o p + nFP o p ≠ 0 →
      (calculate_accuracy o p).false_positive_rate =
        RVal.fin (1 - specificityOf o p)) ∧
    (nTP o p + nFN o p ≠ 0 →
      (calculate_accuracy o p).false_negative_rate =
        RVal.fin (1 - recallOf o p)) := by
  obtain ⟨h1, h2, h3, h4, h5, h6, h7, h8, h9⟩ := maskCounts o p hlen ho hp
  rw [calculate_accuracy_eq_counts o p hlen ho hp]
  have hPe : ((nTP o p : ℚ)) / (((nTP o p + nFP o p : ℕ)) : ℚ) = precisionOf o p := by
    simp only [precisionOf]
    push_cast
    ring
  have hRe : ((nTP o p : ℚ)) / (((nTP o p + nFN o p : ℕ)) : ℚ) = recallOf o p := by
    simp only [recallOf]
    push_cast
    ring
  have hSe : ((nTN o p : ℚ)) / (((nTN o p + nFP o p : ℕ)) : ℚ) = specificityOf o p := by
    simp only [specificityOf]
    push_cast
    ring
  refine ⟨h9, ?_, ?_, ?_, ?_, ?_, ?_, ?_, ?_, ?_⟩
  · intro hne
    have hn : o.length ≠ 0 := fun h => hne (List.length_eq_zero.mp h)
    rw [mfc_accuracy, RVal.div_cast_of_ne _ _ hn]
  · intro hd
    rw [mfc_precision, RVal.div_cast_of_ne _ _ hd, hPe]
  · intro hd
    rw [mfc_recall, RVal.div_cast_of_ne _ _ hd, hRe]
  · intro hd1 hd2 hd3
    rw [mfc_f1, RVal.div_cast_of_ne _ _ hd1, RVal.div_cast_of_ne _ _ hd2, hPe, hRe]
    simp only [RVal.mul, RVal.add]
    rw [RVal.div_fin_of_ne _ _ hd3]
    simp only [RVal.mul]
    congr 1
    ring
  · intro hd
    rw [mfc_specificity, RVal.div_cast_of_ne _ _ hd, hSe]
  · intro hd2 hd5 hdS
    rw [mfc_positive_likelihood, RVal.div_cast_of_ne _ _ hd2,
      RVal.div_cast_of_ne _ _ hd5, hRe, hSe, RVal.sub_fin_fin,
      RVal.div_fin_of_ne _ _ hdS]
  · intro hd2 hd5 hdS0
    rw [mfc_negative_likelihood, RVal.div_cast_of_ne _ _ hd2,
      RVal.div_cast_of_ne _ _ hd5, hRe, hSe, RVal.sub_fin_fin,
      RVal.div_fin_of_ne _ _ hdS0]
  · intro hd
    rw [mfc_false_positive_rate, RVal.div_cast_of_ne _ _ hd, hSe, RVal.sub_fin_fin]
  · intro hd
    rw [mfc_false_negative_rate, RVal.div_cast_of_ne _ _ hd, hRe, RVal.sub_fin_fin]

/-- C4 witness at observed = [1,1,0,0,1], predicted = [1,0,0,1,1]. -/
theorem claim_C4_witness :
    (calculate_accuracy [1,1,0,0,1] [1,0,0,1,1]).precision =
      RVal.fin (precisionOf [1,1,0,0,1] [1,0,0,1,1]) :=
  (claim_C4_defining_equations [1,1,0,0,1] [1,0,0,1,1] (by decide) (by decide)
    (by decide)).2.2.1 (by decide)

/-- C5: on equal-length non-empty binary inputs, accuracy lies in [0, 1];
precision, recall and specificity lie in [0, 1] whenever their denominators
are nonzero, and f1 lies in [0, 1] whenever precision and recall are defined
and their sum is nonzero. -/
theorem claim_C5_unit_range (o p : List ℕ) (hlen : o.length = p.length)
    (hne : o ≠ []) (ho : BinarySeq o) (hp : BinarySeq p) :
    RVal.inUnit (calculate_accuracy o p).accuracy ∧
    (nTP o p + nFP o p ≠ 0 → RVal.inUnit (calculate_accuracy o p).precision) ∧
    (nTP o p + nFN o p ≠ 0 → RVal.inUnit (calculate_accuracy o p).recall') ∧
    (nTN o p + nFP o p ≠ 0 → RVal.inUnit (calculate_accuracy o p).specificity) ∧
    (nTP o p + nFP o p ≠ 0 → nTP o p + nFN o p ≠ 0 →
      precisionOf o p + recallOf o p ≠ 0 →
      RVal.inUnit (calculate_accuracy o p).f1) := by
  obtain ⟨h1, h2, h3, h4, h5, h6, h7, h8, h9⟩ := maskCounts o p hlen ho hp
  have hn : o.length ≠ 0 := fun h => hne (List.length_eq_zero.mp h)
  rw [calculate_accuracy_eq_counts o p hlen ho hp]
  have hPe : ((nTP o p : ℚ)) / (((nTP o p + nFP o p : ℕ)) : ℚ) = precisionOf o p := by
    simp only [precisionOf]
    push_cast
    ring
  have hRe : ((nTP o p : ℚ)) / (((nTP o p + nFN o p : ℕ)) : ℚ) = recallOf o p := by
    simp only [recallOf]
    push_cast
    ring
  refine ⟨?_, ?_, ?_, ?_, ?_⟩
  · rw [mfc_accuracy]
    exact RVal.inUnit_div_cast _ _ hn (by omega)
  · intro hd
    rw [mfc_precision]
    exact RVal.inUnit_div_cast _ _ hd (by omega)
  · intro hd
    rw [mfc_recall]
    exact RVal.inUnit_div_cast _ _ hd (by omega)
  · intro hd
    rw [mfc_specificity]
    exact RVal.inUnit_div_cast _ _ hd (by omega)
  · intro hd1 hd2 hd3
    rw [mfc_f1, RVal.div_cast_of_ne _ _ hd1, RVal.div_cast_of_ne _ _ hd2, hPe, hRe]
    simp only [RVal.mul, RVal.add]
    rw [RVal.div_fin_of_ne _ _ hd3]
    simp only [RVal.mul, RVal.inUnit]
    have hPb : 0 ≤ precisionOf o p ∧ precisionOf o p ≤ 1 :=
      ratio_bounds (nTP o p) (nFP o p) hd1
    have hRb : 0 ≤ recallOf o p ∧ recallOf o p ≤ 1 :=
      ratio_bounds (nTP o p) (nFN o p) hd2
    have hplus : 0 < precisionOf o p + recallOf o p :=
      lt_of_le_of_ne (add_nonneg hPb.1 hRb.1) (Ne.symm hd3)
    constructor
    · have hnn : 0 ≤ precisionOf o p * recallOf o p /
          (precisionOf o p + recallOf o p) :=
        div_nonneg (mul_nonneg hPb.1 hRb.1) hplus.le
      linarith
    · rw [show (2 : ℚ) * (precisionOf o p * recallOf o p /
          (precisionOf o p + recallOf o p)) =
          2 * precisionOf o p * recallOf o p /
            (precisionOf o p + recallOf o p) by ring]
      rw [div_le_one hplus]
      nlinarith [mul_nonneg hPb.1 (sub_nonneg.mpr hRb.2),
        mul_nonneg hRb.1 (sub_nonneg.mpr hPb.2)]

/-- C5 witness at observed = [1, 0], predicted = [1, 1]. -/
theorem claim_C5_witness : RVal.inUnit (calculate_accuracy [1, 0] [1, 1]).accuracy :=
  (claim_C5_unit_range [1, 0] [1, 1] (by decide) (by decide) (by decide)
    (by decide)).1
